import Mathlib

/-!
# Verification of the SSR module loader (ssrModuleLoader.ts)

A shallow embedding of the server-side module instantiation engine:
the single-flight loader (`ssrLoadModule`), the module instantiation
executor (`instantiateModule`), the dependency cycle tracker
(`addPendingModuleDependency` / `checkModuleDependencyExists`), the
per-module binding environment (`ssrImport`, `ssrDynamicImport`,
`ssrExportAll`) and the legacy interop shim (`proxyESM`).

JavaScript objects are modelled by an explicit heap mapping object
identities (natural numbers) to property bags, so that object identity,
accessor (getter) properties and `Object.freeze` are observable.
-/

namespace SsrLoader

/-- JavaScript primitive values (NaN and symbols are not modelled;
`Symbol.toStringTag` keys are therefore elided from property bags). -/
inductive Prim where
  | undefined
  | null
  | boolean (b : Bool)
  | number (n : Int)
  | str (s : String)
  deriving DecidableEq, Repr

/-- A JavaScript value: a primitive, or a reference to a heap object
(functions are modelled as objects; only their property bag matters here). -/
inductive JSVal where
  | prim (p : Prim)
  | obj (o : Nat)
  deriving DecidableEq, Repr

/-- A property slot: either a plain data property or an accessor property
whose getter reads key `key` of object `src` at access time (the shape
installed by `ssrExportAll`). -/
inductive PropVal where
  | data (v : JSVal)
  | getter (src : Nat) (key : String)
  deriving DecidableEq, Repr

/-- A JavaScript object: an ordered own-property bag plus the
`Object.freeze` flag.  (Prototype chains are not modelled; `for..in` and
`in` are read on own enumerable properties.) -/
structure JSObj where
  props : List (String × PropVal)
  frozen : Bool
  deriving DecidableEq, Repr

/-- The heap: an association list from object identity to object, plus the
next fresh identity. -/
structure Heap where
  objs : List (Nat × JSObj)
  next : Nat
  deriving DecidableEq, Repr

def lookupObj (h : Heap) (o : Nat) : Option JSObj :=
  (h.objs.find? (fun kv => kv.1 = o)).map (fun kv => kv.2)

/-- Replace the object stored at identity `o` (no-op when absent). -/
def updateObj (h : Heap) (o : Nat) (ob : JSObj) : Heap :=
  { h with objs := h.objs.map (fun kv => if kv.1 = o then (o, ob) else kv) }

/-- Allocate a fresh object with the given initial properties. -/
def allocObjWith (h : Heap) (props : List (String × PropVal)) : Heap × Nat :=
  ({ objs := (h.next, { props := props, frozen := false }) :: h.objs,
     next := h.next + 1 }, h.next)

/-- Own-property lookup on an object. -/
def getOwn (ob : JSObj) (k : String) : Option PropVal :=
  (ob.props.find? (fun kv => kv.1 = k)).map (fun kv => kv.2)

/-- Set/overwrite a property slot, preserving JavaScript insertion order
(existing key keeps its position, a new key is appended). -/
def setOwn (ob : JSObj) (k : String) (pv : PropVal) : JSObj :=
  if (ob.props.find? (fun kv => kv.1 = k)).isSome then
    { ob with props := ob.props.map (fun kv => if kv.1 = k then (k, pv) else kv) }
  else
    { ob with props := ob.props ++ [(k, pv)] }

/-- `k in o`: own-property presence test. -/
def hasProp (h : Heap) (o : Nat) (k : String) : Bool :=
  match lookupObj h o with
  | none => false
  | some ob => (getOwn ob k).isSome

/-- Property read.  An absent object or property reads as `undefined`;
an accessor property reads its source at access time.  `fuel` bounds
getter-chain depth (a cyclic getter chain, which in JavaScript would not
terminate, yields `none`). -/
def readProp : Nat → Heap → Nat → String → Option JSVal
  | 0, _, _, _ => none
  | fuel + 1, h, o, k =>
    match lookupObj h o with
    | none => some (JSVal.prim Prim.undefined)
    | some ob =>
      match getOwn ob k with
      | none => some (JSVal.prim Prim.undefined)
      | some (PropVal.data v) => some v
      | some (PropVal.getter src key) => readProp fuel h src key

/-- Property read with a heap-sized default fuel, defaulting to
`undefined` when the getter chain does not resolve. -/
def readPropD (h : Heap) (o : Nat) (k : String) : JSVal :=
  (readProp (h.objs.length + 1) h o k).getD (JSVal.prim Prim.undefined)

/-- Assignment `o[k] = v`.  On a frozen object the write is dropped
(strict-mode JavaScript throws; either way the object is unchanged).
Assignment through an accessor property without a setter is likewise
dropped. -/
def setProp (h : Heap) (o : Nat) (k : String) (v : JSVal) : Heap :=
  match lookupObj h o with
  | none => h
  | some ob =>
    if ob.frozen then h
    else
      match getOwn ob k with
      | some (PropVal.getter _ _) => h
      | _ => updateObj h o (setOwn ob k (PropVal.data v))

/-- `Object.defineProperty(o, k, { get, enumerable, configurable })`.
On a frozen object the definition is dropped (JavaScript throws; either
way the object is unchanged). -/
def defineGetter (h : Heap) (o : Nat) (k : String) (src : Nat) (srcKey : String) : Heap :=
  match lookupObj h o with
  | none => h
  | some ob =>
    if ob.frozen then h
    else updateObj h o (setOwn ob k (PropVal.getter src srcKey))

/-- `delete o[k]`.  Dropped on a frozen object. -/
def deleteProp (h : Heap) (o : Nat) (k : String) : Heap :=
  match lookupObj h o with
  | none => h
  | some ob =>
    if ob.frozen then h
    else updateObj h o { ob with props := ob.props.filter (fun kv => ¬ kv.1 = k) }

/-- `Object.freeze(o)`: marks the object frozen (and returns the same
reference in the source; identity is the index `o` here). -/
def freezeObj (h : Heap) (o : Nat) : Heap :=
  match lookupObj h o with
  | none => h
  | some ob => updateObj h o { ob with frozen := true }

/-- Heap well-formedness: every allocated identity is below `next`. -/
def Heap.WF (h : Heap) : Prop :=
  ∀ kv ∈ h.objs, kv.1 < h.next

instance (h : Heap) : Decidable h.WF := by
  unfold Heap.WF; infer_instance

/-- Modelled from the spec: the identifier normalization used by the
single-flight loader (the shared `unwrapId` helper lives outside this
repository slice).  It strips the internal virtual-id prefixing
convention and leaves other identifiers unchanged. -/
def unwrapId (id : String) : String :=
  if id.toList.take 5 = "/@id/".toList then String.mk (id.toList.drop 5) else id

/-! ## Dependency cycle tracker

`pendingModuleDependencyGraph` is a map from an in-flight origin url to
the set of urls it has statically imported so far.  It is modelled as the
set of registered edges `(origin, dep)`; `get` is recovered by filtering,
which observes the same dependencies as the source's map-of-sets. -/

abbrev DepGraph := List (String × String)

/-- `addPendingModuleDependency(originUrl, depUrl)`: register the static
edge `origin -> dep`. -/
def addPendingModuleDependency (g : DepGraph) (originUrl depUrl : String) : DepGraph :=
  (originUrl, depUrl) :: g

/-- `pendingModuleDependencyGraph.get(u)`: the registered static
dependencies of `u` (empty when `u` has no entry, which the search loop
treats identically to an absent entry). -/
def depsOf (g : DepGraph) (u : String) : List String :=
  (g.filter (fun e => e.1 = u)).map (fun e => e.2)

/-- `pendingModuleDependencyGraph.delete(url)`: the finally-block cleanup
run when an instantiation settles. -/
def deleteDeps (g : DepGraph) (u : String) : DepGraph :=
  g.filter (fun e => ¬ e.1 = u)

/-- Every identifier occurring in the edge set (used only to measure the
termination of the search loop). -/
def nodesOf (g : DepGraph) : Finset String :=
  (g.map (fun e => e.1)).toFinset ∪ (g.map (fun e => e.2)).toFinset

theorem depsOf_eq_nil_of_not_mem_nodes (g : DepGraph) (u : String) (hu : u ∉ nodesOf g) :
    depsOf g u = [] := by
  unfold depsOf
  rw [List.map_eq_nil_iff, List.filter_eq_nil_iff]
  intro e he
  simp only [decide_eq_true_eq]
  intro h1
  apply hu
  unfold nodesOf
  apply Finset.mem_union_left
  rw [List.mem_toFinset]
  exact h1 ▸ List.mem_map_of_mem (fun e => e.1) he

/-- The body of `checkModuleDependencyExists`: an iterative worklist
search with an explicit stack (head = top, matching the source's
push/pop at the array end) and a visited set.  The current url is
compared against the target before the visited check, the current url is
added to the visited set, and each not-yet-visited dependency is pushed,
exactly as in the source loop. -/
def checkLoop (g : DepGraph) (targetUrl : String) : List String → Finset String → Bool
  | [], _ => false
  | currentUrl :: stack, visited =>
    if currentUrl = targetUrl then true
    else if currentUrl ∈ visited then checkLoop g targetUrl stack visited
    else
      checkLoop g targetUrl
        ((depsOf g currentUrl).foldl
          (fun st depUrl => if depUrl ∈ insert currentUrl visited then st else depUrl :: st)
          stack)
        (insert currentUrl visited)
  termination_by stack visited => ((nodesOf g \ visited).card, stack.length)
  decreasing_by
  · apply Prod.Lex.right
    simp
  · by_cases hc : currentUrl ∈ nodesOf g
    · apply Prod.Lex.left
      rw [Finset.sdiff_insert]
      exact Finset.card_erase_lt_of_mem (Finset.mem_sdiff.mpr ⟨hc, by assumption⟩)
    · have hdeps : depsOf g currentUrl = [] := depsOf_eq_nil_of_not_mem_nodes g currentUrl hc
      have hV : nodesOf g \ insert currentUrl visited = nodesOf g \ visited := by
        rw [Finset.sdiff_insert, Finset.erase_eq_of_not_mem]
        intro hmem
        exact hc (Finset.mem_sdiff.mp hmem).1
      rw [hdeps, hV]
      apply Prod.Lex.right
      simp

/-- `checkModuleDependencyExists(originUrl, targetUrl)`. -/
def checkModuleDependencyExists (g : DepGraph) (originUrl targetUrl : String) : Bool :=
  checkLoop g targetUrl [originUrl] ∅

/-- Reachability along registered static edges (zero or more steps). -/
inductive Reaches (g : DepGraph) : String → String → Prop where
  | refl (u : String) : Reaches g u u
  | step {u v w : String} : (u, v) ∈ g → Reaches g v w → Reaches g u w

theorem mem_depsOf (g : DepGraph) (u v : String) : v ∈ depsOf g u ↔ (u, v) ∈ g := by
  unfold depsOf
  rw [List.mem_map]
  constructor
  · rintro ⟨e, he, rfl⟩
    have hm := List.mem_filter.mp he
    have h1 : e.1 = u := by simpa using hm.2
    rcases e with ⟨a, b⟩
    cases h1
    exact hm.1
  · intro hg
    exact ⟨(u, v), List.mem_filter.mpr ⟨hg, by simp⟩, rfl⟩

theorem mem_pushDeps (deps : List String) (visited : Finset String) (stack : List String)
    (x : String) :
    x ∈ deps.foldl (fun st d => if d ∈ visited then st else d :: st) stack ↔
      (x ∈ deps ∧ x ∉ visited) ∨ x ∈ stack := by
  induction deps generalizing stack with
  | nil => simp
  | cons d ds ih =>
    rw [List.foldl_cons]
    by_cases hd : d ∈ visited
    · rw [if_pos hd, ih]
      constructor
      · rintro (⟨h1, h2⟩ | h2)
        · exact Or.inl ⟨List.mem_cons_of_mem _ h1, h2⟩
        · exact Or.inr h2
      · rintro (⟨h1, h2⟩ | h2)
        · rcases List.mem_cons.mp h1 with h1 | h1
          · exact absurd (h1 ▸ hd) h2
          · exact Or.inl ⟨h1, h2⟩
        · exact Or.inr h2
    · rw [if_neg hd, ih]
      constructor
      · rintro (⟨h1, h2⟩ | h2)
        · exact Or.inl ⟨List.mem_cons_of_mem _ h1, h2⟩
        · rcases List.mem_cons.mp h2 with h2 | h2
          · exact Or.inl ⟨by rw [h2]; exact List.mem_cons_self _ _, by rw [h2]; exact hd⟩
          · exact Or.inr h2
      · rintro (⟨h1, h2⟩ | h2)
        · rcases List.mem_cons.mp h1 with h1 | h1
          · rw [h1]; exact Or.inr (List.mem_cons_self _ _)
          · exact Or.inl ⟨h1, h2⟩
        · exact Or.inr (List.mem_cons_of_mem _ h2)

/-- Soundness of the worklist search: a positive answer means some
stacked url reaches the target. -/
theorem checkLoop_sound (g : DepGraph) (targetUrl : String) (stack : List String)
    (visited : Finset String) :
    checkLoop g targetUrl stack visited = true → ∃ u ∈ stack, Reaches g u targetUrl := by
  induction stack, visited using checkLoop.induct g targetUrl with
  | case1 visited =>
    intro h
    rw [checkLoop] at h
    exact absurd h (by simp)
  | case2 stack visited =>
    intro _
    exact ⟨targetUrl, List.mem_cons_self _ _, Reaches.refl _⟩
  | case3 currentUrl stack visited hne hvis ih =>
    intro h
    rw [checkLoop, if_neg hne, if_pos hvis] at h
    rcases ih h with ⟨u, hu, hr⟩
    exact ⟨u, List.mem_cons_of_mem _ hu, hr⟩
  | case4 currentUrl stack visited hne hvis ih =>
    intro h
    rw [checkLoop, if_neg hne, if_neg hvis] at h
    rcases ih h with ⟨u, hu, hr⟩
    rcases (mem_pushDeps _ _ _ _).mp hu with ⟨hdep, _⟩ | hstk
    · exact ⟨currentUrl, List.mem_cons_self _ _,
        Reaches.step ((mem_depsOf g currentUrl u).mp hdep) hr⟩
    · exact ⟨u, List.mem_cons_of_mem _ hstk, hr⟩

/-- Escape from the visited set: under the loop invariants (no visited
url is the target, and every edge out of a visited url lands on the
stack or back in the visited set), a visited url that reaches the target
forces some stacked url to reach the target. -/
theorem escape_visited (g : DepGraph) (t : String) (S : List String) (V : Finset String) :
    ∀ v, Reaches g v t →
    (∀ v ∈ V, v ≠ t) →
    (∀ v ∈ V, ∀ w, (v, w) ∈ g → w ∈ S ∨ w ∈ V) →
    v ∈ V → ∃ u ∈ S, Reaches g u t := by
  intro v hr
  induction hr with
  | refl u =>
    intro ha _ hv
    exact absurd rfl (ha u hv)
  | step hedge htail ih =>
    intro ha hb hv
    rcases hb _ hv _ hedge with hS | hV
    · exact ⟨_, hS, htail⟩
    · exact ih ha hb hV

/-- Completeness of the worklist search: under the loop invariants, if
some stacked url reaches the target the search answers `true`. -/
theorem checkLoop_complete (g : DepGraph) (t : String) (stack : List String)
    (V : Finset String) :
    (∀ v ∈ V, v ≠ t) →
    (∀ v ∈ V, ∀ w, (v, w) ∈ g → w ∈ stack ∨ w ∈ V) →
    (∃ u ∈ stack, Reaches g u t) →
    checkLoop g t stack V = true := by
  induction stack, V using checkLoop.induct g t with
  | case1 V =>
    rintro _ _ ⟨u, hu, _⟩
    exact absurd hu (List.not_mem_nil u)
  | case2 stack V =>
    intro _ _ _
    rw [checkLoop, if_pos rfl]
  | case3 currentUrl stack V hne hvis ih =>
    intro ha hb hex
    rw [checkLoop, if_neg hne, if_pos hvis]
    have hb' : ∀ v ∈ V, ∀ w, (v, w) ∈ g → w ∈ stack ∨ w ∈ V := by
      intro v hv w hw
      rcases hb v hv w hw with hs | hV
      · rcases List.mem_cons.mp hs with hcur | hs
        · exact Or.inr (hcur ▸ hvis)
        · exact Or.inl hs
      · exact Or.inr hV
    rcases hex with ⟨u, hu, hr⟩
    rcases List.mem_cons.mp hu with hcur | hu
    · exact ih ha hb' (escape_visited g t stack V u hr ha hb' (hcur ▸ hvis))
    · exact ih ha hb' ⟨u, hu, hr⟩
  | case4 currentUrl stack V hne hvis ih =>
    intro ha hb hex
    rw [checkLoop, if_neg hne, if_neg hvis]
    have ha' : ∀ v ∈ insert currentUrl V, v ≠ t := by
      intro v hv
      rcases Finset.mem_insert.mp hv with rfl | hv
      · exact hne
      · exact ha v hv
    have hb' : ∀ v ∈ insert currentUrl V, ∀ w, (v, w) ∈ g →
        w ∈ (depsOf g currentUrl).foldl
          (fun st depUrl => if depUrl ∈ insert currentUrl V then st else depUrl :: st)
          stack ∨ w ∈ insert currentUrl V := by
      intro v hv w hw
      by_cases hwV : w ∈ insert currentUrl V
      · exact Or.inr hwV
      · rcases Finset.mem_insert.mp hv with rfl | hv
        · exact Or.inl ((mem_pushDeps _ _ _ _).mpr
            (Or.inl ⟨(mem_depsOf g v w).mpr hw, hwV⟩))
        · rcases hb v hv w hw with hs | hV
          · rcases List.mem_cons.mp hs with rfl | hs
            · exact absurd (Finset.mem_insert_self _ _) hwV
            · exact Or.inl ((mem_pushDeps _ _ _ _).mpr (Or.inr hs))
          · exact absurd (Finset.mem_insert_of_mem hV) hwV
    apply ih ha' hb'
    rcases hex with ⟨u, hu, hr⟩
    rcases List.mem_cons.mp hu with rfl | hu
    · cases hr with
      | refl => exact absurd rfl hne
      | step hedge htail =>
        rename_i v'
        by_cases hv' : v' ∈ insert u V
        · exact escape_visited g t _ _ v' htail ha' hb' hv'
        · exact ⟨v', (mem_pushDeps _ _ _ _).mpr
            (Or.inl ⟨(mem_depsOf g u v').mpr hedge, hv'⟩), htail⟩
    · exact ⟨u, (mem_pushDeps _ _ _ _).mpr (Or.inr hu), hr⟩

/-! ## Module records and the instantiation executor -/

/-- The fields of a module-graph record that the executor reads and
writes (`moduleGraph.ensureEntryFromUrl` owns the record's lifecycle).
Errors thrown by module bodies are identified by an opaque number, so
that "the same error" is an identity statement. -/
structure ModRecord where
  ssrError : Option Nat
  ssrModule : Option Nat
  ssrTransformResult : Option String
  deriving DecidableEq, Repr

/-- Failures of the instantiation executor: the transform-unavailable
error (`failed to load module for ssr: url`), or a cached or fresh
module-body execution error carrying the thrown value. -/
inductive InstErr where
  | transformFailed (url : String)
  | execError (e : Nat)
  deriving DecidableEq, Repr

/-- One heap effect a module body can perform while executing, through
its binding environment (`__vite_ssr_exports__` assignment, accessor
definition, `ssrExportAll`, deletion) or allocation. -/
inductive HeapOp where
  | set (o : Nat) (k : String) (v : JSVal)
  | defGetter (o : Nat) (k : String) (src : Nat) (srcKey : String)
  | exportAll (target : Nat) (src : Nat)
  | del (o : Nat) (k : String)
  | alloc (props : List (String × PropVal))
  deriving DecidableEq, Repr

/-- `ssrExportAll(sourceModule)`: for every enumerable key of the source
except the reserved `default` and `__esModule` keys, install an
enumerable configurable accessor on the exports container whose getter
reads the source's property at access time. -/
def ssrExportAll (h : Heap) (exportsObj sourceObj : Nat) : Heap :=
  match lookupObj h sourceObj with
  | none => h
  | some src =>
    src.props.foldl
      (fun h kv =>
        if kv.1 ≠ "default" ∧ kv.1 ≠ "__esModule" then
          defineGetter h exportsObj kv.1 sourceObj kv.1
        else h)
      h

def applyOp (h : Heap) : HeapOp → Heap
  | HeapOp.set o k v => setProp h o k v
  | HeapOp.defGetter o k src srcKey => defineGetter h o k src srcKey
  | HeapOp.exportAll t src => ssrExportAll h t src
  | HeapOp.del o k => deleteProp h o k
  | HeapOp.alloc props => (allocObjWith h props).1

def applyOps (h : Heap) (ops : List HeapOp) : Heap :=
  ops.foldl applyOp h

/-- The fresh exports container created at the start of instantiation:
`{ [Symbol.toStringTag]: 'Module' }` plus the `__esModule: true` marker
(the symbol-keyed tag is not representable in a string-keyed bag; the
marker is defined non-enumerable in the source, and every consumer in
this slice either tests its presence or explicitly skips it). -/
def allocModuleExports (h : Heap) : Heap × Nat :=
  allocObjWith h [("__esModule", PropVal.data (JSVal.prim (Prim.boolean true)))]

/-- The observable outcome of one `instantiateModule` run. -/
structure InstResult where
  result : Except InstErr Nat
  heap : Heap
  record : ModRecord
  depGraph : DepGraph
  counter : Nat
  deriving Repr

/-- `instantiateModule(url)`, with collaborators at their interface
boundary: `transformRequest` is the transform collaborator's answer for
this url, and the module body is given by the heap effects it performs
before settling (`bodyOps`) and its outcome (`bodyResult`, a thrown
value by identity).  `counter` counts body executions (the spec's
side-effect counter).  Mirrors the source order: cached fatal error,
cached exports, transform, exports-container creation and attachment,
body execution with error caching, edge-set cleanup, freeze on success. -/
def instantiateModule (heap : Heap) (record : ModRecord) (g : DepGraph) (url : String)
    (transformRequest : Option String) (bodyOps : List HeapOp)
    (bodyResult : Except Nat Unit) (counter : Nat) : InstResult :=
  match record.ssrError with
  | some e => ⟨Except.error (InstErr.execError e), heap, record, g, counter⟩
  | none =>
  match record.ssrModule with
  | some m => ⟨Except.ok m, heap, record, g, counter⟩
  | none =>
  match record.ssrTransformResult.orElse (fun _ => transformRequest) with
  | none => ⟨Except.error (InstErr.transformFailed url), heap, record, g, counter⟩
  | some _code =>
    let alloc := allocModuleExports heap
    let ssrModule := alloc.2
    let record1 := { record with ssrModule := some ssrModule }
    let heap2 := applyOps alloc.1 bodyOps
    match bodyResult with
    | Except.error e =>
      ⟨Except.error (InstErr.execError e), heap2,
        { record1 with ssrError := some e }, deleteDeps g url, counter + 1⟩
    | Except.ok _ =>
      ⟨Except.ok ssrModule, freezeObj heap2 ssrModule, record1, deleteDeps g url, counter + 1⟩

/-! ## The per-module import bindings -/

/-- `moduleGraph.urlToModuleMap`. -/
abbrev ModuleMap := List (String × ModRecord)

def lookupRecord (mg : ModuleMap) (url : String) : Option ModRecord :=
  (mg.find? (fun kv => kv.1 = url)).map (fun kv => kv.2)

/-- How one `ssrImport` call continues: delegate to `nodeImport`
(external specifiers), return a cycle participant's current exports,
fail with the dedicated uninitialized-cycle error, or fall through to
the single-flight loader. -/
inductive ImportOutcome where
  | external (dep : String)
  | cycleExports (m : Nat)
  | uninitializedCycleError
  | singleFlightLoad (dep : String)
  deriving DecidableEq, Repr

/-- `ssrImport(dep, metadata)` inside the instantiation of `url`:
routing and cycle handling up to the point where control leaves the
function.  (The surrounding try/catch only tags a raised error with
the importee and rethrows, and is dropped here.)  In the source the
first-character test reads `dep[0]`, which for the empty string is
`undefined` and so routes external; `String.front` of the empty string
is likewise neither `.` nor `/`. -/
def ssrImport (mg : ModuleMap) (url : String) (g : DepGraph) (dep : String)
    (isDynamicImport : Bool) : ImportOutcome × DepGraph :=
  if dep.front ≠ '.' ∧ dep.front ≠ '/' then
    (ImportOutcome.external dep, g)
  else
    let dep := unwrapId dep
    if ¬ isDynamicImport then
      let g := addPendingModuleDependency g url dep
      if checkModuleDependencyExists g dep url then
        match (lookupRecord mg dep).bind (fun r => r.ssrModule) with
        | none => (ImportOutcome.uninitializedCycleError, g)
        | some depSsrModule => (ImportOutcome.cycleExports depSsrModule, g)
      else (ImportOutcome.singleFlightLoad dep, g)
    else (ImportOutcome.singleFlightLoad dep, g)

/-- Node's `path.dirname` on posix paths. -/
def posixDirname (p : String) : String :=
  match p.toList.reverse.findIdx? (fun c => c = '/') with
  | none => "."
  | some i =>
    let cut := p.length - 1 - i
    if cut = 0 then "/" else p.take cut

/-- Node's `path.posix.resolve(base, rel)` for an absolute `base`: join
and normalize `.` and `..` segments.  (The process-cwd fallback for a
relative base is not modelled; the loader resolves against module urls,
which are root-absolute.) -/
def posixResolve (base rel : String) : String :=
  let joined := if rel.startsWith "/" then rel else base ++ "/" ++ rel
  let segs := (joined.splitOn "/").foldl
    (fun acc seg =>
      if seg = "" ∨ seg = "." then acc
      else if seg = ".." then acc.dropLast
      else acc ++ [seg])
    []
  "/" ++ String.intercalate "/" segs

/-- The function `ssrDynamicImport(dep)`: normalize a relative
specifier against the importing module's own location, then import
with the dynamic-import mark set. -/
def ssrDynamicImport (mg : ModuleMap) (url : String) (g : DepGraph) (dep : String) :
    ImportOutcome × DepGraph :=
  let dep := if dep.front = '.' then posixResolve (posixDirname url) dep else dep
  ssrImport mg url g dep true

/-! ## The single-flight loader -/

/-- The loader's process-wide state: the pending-modules table from
normalized identifier to in-flight promise handle, the next fresh
handle, and the log of started instantiations (most recent first),
which counts instantiation executions. -/
structure LoaderState where
  pendingModules : List (String × Nat)
  nextPromise : Nat
  instantiations : List String
  deriving DecidableEq, Repr

/-- `ssrLoadModule(url)` up to its first suspension point: normalize the
identifier, return the pending handle when one exists, otherwise start
`instantiateModule` and synchronously register its promise before
yielding. -/
def ssrLoadModule (s : LoaderState) (url : String) : Nat × LoaderState :=
  let url := unwrapId url
  match (s.pendingModules.find? (fun kv => kv.1 = url)).map (fun kv => kv.2) with
  | some pending => (pending, s)
  | none =>
    (s.nextPromise,
     { pendingModules := (url, s.nextPromise) :: s.pendingModules,
       nextPromise := s.nextPromise + 1,
       instantiations := url :: s.instantiations })

/-- The finally-handler attached to the registered promise: when the
load settles (success or failure) its pending entry is removed.  `url`
is the already-normalized key the entry was registered under. -/
def settlePending (s : LoaderState) (url : String) : LoaderState :=
  { s with pendingModules := s.pendingModules.filter (fun kv => ¬ kv.1 = url) }

/-- Issue a batch of loads back to back (before any resolves),
collecting each caller's promise handle. -/
def loadMany (s : LoaderState) (urls : List String) : List Nat × LoaderState :=
  match urls with
  | [] => ([], s)
  | u :: us =>
    let r := ssrLoadModule s u
    let rest := loadMany r.2 us
    (r.1 :: rest.1, rest.2)

/-! ## Legacy interop shim (`proxyESM`) -/

/-- JavaScript truthiness of the modelled values (`!value` is the
negation).  No modelled object is falsy. -/
def falsy : JSVal → Bool
  | JSVal.prim Prim.undefined => true
  | JSVal.prim Prim.null => true
  | JSVal.prim (Prim.boolean b) => !b
  | JSVal.prim (Prim.number n) => n == 0
  | JSVal.prim (Prim.str s) => s == ""
  | JSVal.obj _ => false

/-- The `typeof` operator on the modelled values.  `typeof null` is
`"object"`; function objects are lumped with plain objects, which keeps
`isPrimitive` exact since both pass its object-or-function test. -/
def jsTypeof : JSVal → String
  | JSVal.prim Prim.undefined => "undefined"
  | JSVal.prim Prim.null => "object"
  | JSVal.prim (Prim.boolean _) => "boolean"
  | JSVal.prim (Prim.number _) => "number"
  | JSVal.prim (Prim.str _) => "string"
  | JSVal.obj _ => "object"

/-- `isPrimitive(value)`:
`!value || (typeof value !== 'object' && typeof value !== 'function')`. -/
def isPrimitive (value : JSVal) : Bool :=
  falsy value || (jsTypeof value ≠ "object" && jsTypeof value ≠ "function")

/-- The values `??` and `?.` trigger on: `null` and `undefined`. -/
def isNullish : JSVal → Bool
  | JSVal.prim Prim.undefined => true
  | JSVal.prim Prim.null => true
  | _ => false

/-- `v?.[k]`: optional-chained property read.  A read on a non-nullish
primitive boxes it and consults the (unmodelled) wrapper prototype,
which yields `undefined` for the export names at play. -/
def optChainRead (h : Heap) (v : JSVal) (k : String) : JSVal :=
  match v with
  | JSVal.obj o => readPropD h o k
  | JSVal.prim _ => JSVal.prim Prim.undefined

/-- The read-through wrapper built by `proxyESM`: the proxy target
(`mod`, after the one-level legacy unwrap) and the computed
default-export candidate captured by the handler. -/
structure ProxyESM where
  target : Nat
  defaultExport : JSVal
  deriving DecidableEq, Repr

/-- What `proxyESM` hands back: a synthetic plain container (primitive
case) or the read-through proxy. -/
inductive ProxyESMResult where
  | plain (o : Nat)
  | proxied (p : ProxyESM)
  deriving DecidableEq, Repr

/-- `proxyESM(mod)`: rollup-style default import interop for CJS.  The
candidate is `mod.default` when the key is present, else `mod` itself;
when the candidate is a non-primitive carrying the `__esModule` marker
the target is rebased onto it and a nested `default` unwraps one level
further.  The inner primitive match arm is unreachable, because
`isPrimitive` is true on every primitive value. -/
def proxyESM (h : Heap) (modVal : JSVal) : Heap × ProxyESMResult :=
  if isPrimitive modVal then
    let alloc := allocObjWith h [("default", PropVal.data modVal)]
    (alloc.1, ProxyESMResult.plain alloc.2)
  else
    match modVal with
    | JSVal.prim _ => (h, ProxyESMResult.plain 0)
    | JSVal.obj o =>
      let defaultExport := if hasProp h o "default" then readPropD h o "default" else modVal
      match defaultExport with
      | JSVal.obj d =>
        if hasProp h d "__esModule" then
          (h, ProxyESMResult.proxied
            ⟨d, if hasProp h d "default" then readPropD h d "default" else defaultExport⟩)
        else (h, ProxyESMResult.proxied ⟨o, defaultExport⟩)
      | JSVal.prim _ => (h, ProxyESMResult.proxied ⟨o, defaultExport⟩)

/-- The proxy's get trap: `prop === 'default'` returns the computed
candidate; any other read is `mod[prop] ?? defaultExport?.[prop]`. -/
def proxyGet (h : Heap) (p : ProxyESM) (prop : String) : JSVal :=
  if prop = "default" then p.defaultExport
  else
    let v := readPropD h p.target prop
    if isNullish v then optChainRead h p.defaultExport prop else v

/-! ## Claim C3: the cycle query decides reachability -/

/-- The worklist search decides reachability over the registered edges
(shared helper; also discharges concrete cycle-query hypotheses in
witnesses). -/
theorem checkExists_iff (g : DepGraph) (originUrl targetUrl : String) :
    checkModuleDependencyExists g originUrl targetUrl = true ↔
      Reaches g originUrl targetUrl := by
  constructor
  · intro h
    rcases checkLoop_sound g targetUrl [originUrl] ∅ h with ⟨u, hu, hr⟩
    have he : u = originUrl := List.mem_singleton.mp hu
    exact he ▸ hr
  · intro hr
    exact checkLoop_complete g targetUrl [originUrl] ∅ (by simp) (by simp)
      ⟨originUrl, List.mem_singleton.mpr rfl, hr⟩

/-- C3: for every edge set and every pair of identifiers, the cycle
query answers true exactly when the target is reachable from the origin
by zero or more registered static edges — reflexively true when they
are equal (`Reaches.refl`) — and the iterative visited-set search is a
total function, so it terminates on every finite edge set, cyclic ones
included (its Lean definition is by well-founded recursion on the
unvisited-nodes/stack measure). -/
theorem checkModuleDependencyExists_iff_reaches (g : DepGraph) (originUrl targetUrl : String) :
    checkModuleDependencyExists g originUrl targetUrl = true ↔
      Reaches g originUrl targetUrl :=
  checkExists_iff g originUrl targetUrl

/-! ## Claim C1: single-flight deduplication -/

/-- A load finding a pending entry for its normalized identifier
returns that same handle and leaves the loader state untouched. -/
theorem ssrLoadModule_of_pending (s : LoaderState) (u k : String) (p : Nat)
    (h : s.pendingModules.find? (fun kv => kv.1 = unwrapId u) = some (k, p)) :
    ssrLoadModule s u = (p, s) := by
  simp [ssrLoadModule, h]

/-- A load finding no pending entry registers itself synchronously and
starts one instantiation. -/
theorem ssrLoadModule_fresh (s : LoaderState) (url : String)
    (h : s.pendingModules.find? (fun kv => kv.1 = unwrapId url) = none) :
    ssrLoadModule s url =
      (s.nextPromise,
       { pendingModules := (unwrapId url, s.nextPromise) :: s.pendingModules,
         nextPromise := s.nextPromise + 1,
         instantiations := unwrapId url :: s.instantiations }) := by
  simp [ssrLoadModule, h]

/-- While an entry for the normalized identifier is pending at the head
of the table, any number of loads of spellings of it return the pending
handle and leave the state unchanged. -/
theorem loadMany_all_pending (s : LoaderState) (url : String) (p : Nat) (urls : List String)
    (hp : s.pendingModules.find? (fun kv => kv.1 = unwrapId url) = some (unwrapId url, p))
    (hnorm : ∀ u ∈ urls, unwrapId u = unwrapId url) :
    loadMany s urls = (List.replicate urls.length p, s) := by
  induction urls with
  | nil => rfl
  | cons u us ih =>
    have hu : unwrapId u = unwrapId url := hnorm u (List.mem_cons_self _ _)
    have hp' : s.pendingModules.find? (fun kv => kv.1 = unwrapId u)
        = some (unwrapId url, p) := by rw [hu]; exact hp
    have hload := ssrLoadModule_of_pending s u (unwrapId url) p hp'
    have hrest := ih (fun v hv => hnorm v (List.mem_cons_of_mem _ hv))
    simp [loadMany, hload, hrest, List.replicate]

/-- C1 (single-flight deduplication): a load of X issued while a
pending entry for the normalized form of X exists returns that same
pending handle (`ssrLoadModule_of_pending`); consequently a first load
of X on a state with no pending entry starts exactly one instantiation,
and every further load of any spelling of X issued before it settles
receives the very same promise handle — hence a reference to the same
eventual exports object or error — while the state (in particular the
instantiation log) does not change again. -/
theorem ssrLoadModule_single_flight (s : LoaderState) (url : String) (urls : List String)
    (hfresh : s.pendingModules.find? (fun kv => kv.1 = unwrapId url) = none)
    (hnorm : ∀ u ∈ urls, unwrapId u = unwrapId url) :
    ((ssrLoadModule s url).2.instantiations = unwrapId url :: s.instantiations) ∧
    (loadMany (ssrLoadModule s url).2 urls
      = (List.replicate urls.length (ssrLoadModule s url).1, (ssrLoadModule s url).2)) := by
  rw [ssrLoadModule_fresh s url hfresh]
  refine ⟨rfl, ?_⟩
  exact loadMany_all_pending _ url s.nextPromise urls (by simp) hnorm

/-- Witness for C1: a fresh load of `/a.js` followed by two more loads
before it settles yields one instantiation and the same handle twice. -/
theorem ssrLoadModule_single_flight_witness :
    ((ssrLoadModule ⟨[], 0, []⟩ "/a.js").2.instantiations = ["/a.js"]) ∧
    (loadMany (ssrLoadModule ⟨[], 0, []⟩ "/a.js").2 ["/a.js", "/a.js"]
      = ([0, 0], (ssrLoadModule ⟨[], 0, []⟩ "/a.js").2)) := by
  have h := ssrLoadModule_single_flight ⟨[], 0, []⟩ "/a.js" ["/a.js", "/a.js"] rfl (by simp)
  exact ⟨h.1, by rw [h.2]; rfl⟩

/-! ## Claim C2: cycle handling inside `ssrImport` -/

/-- C2: a static project-relative import of `dep` by `url`, for which —
after registering the edge `url -> dep` — the tracker reports `url`
reachable from (the normalized) `dep`, returns the dependency's current
exports object straight out of its module record when one exists, fails
with the dedicated uninitialized-cycle error when the record has none,
and never falls through to the single-flight loader. -/
theorem ssrImport_cycle (mg : ModuleMap) (url : String) (g : DepGraph) (dep : String)
    (hrel : dep.front = '.' ∨ dep.front = '/')
    (hcyc : checkModuleDependencyExists
        (addPendingModuleDependency g url (unwrapId dep)) (unwrapId dep) url = true) :
    ((ssrImport mg url g dep false).2 = addPendingModuleDependency g url (unwrapId dep)) ∧
    (∀ m, (lookupRecord mg (unwrapId dep)).bind (fun r => r.ssrModule) = some m →
      (ssrImport mg url g dep false).1 = ImportOutcome.cycleExports m) ∧
    ((lookupRecord mg (unwrapId dep)).bind (fun r => r.ssrModule) = none →
      (ssrImport mg url g dep false).1 = ImportOutcome.uninitializedCycleError) ∧
    (∀ d, (ssrImport mg url g dep false).1 ≠ ImportOutcome.singleFlightLoad d) := by
  have hfront : ¬ (dep.front ≠ '.' ∧ dep.front ≠ '/') := by
    rcases hrel with h | h <;> simp [h]
  rcases hb : (lookupRecord mg (unwrapId dep)).bind (fun r => r.ssrModule) with _ | m
  · refine ⟨?_, ?_, ?_, ?_⟩ <;> simp [ssrImport, hfront, hcyc, hb]
  · refine ⟨?_, ?_, ?_, ?_⟩ <;> simp [ssrImport, hfront, hcyc, hb]

/-- Witness for C2: module `/b.js` (whose record holds exports object 3)
already depends on `/a.js`; a static import of `/b.js` from `/a.js`
closes the cycle and receives object 3 from the record. -/
theorem ssrImport_cycle_witness :
    (ssrImport [("/b.js", ⟨none, some 3, none⟩)] "/a.js" [("/b.js", "/a.js")]
        "/b.js" false).1 = ImportOutcome.cycleExports 3 :=
  (ssrImport_cycle [("/b.js", ⟨none, some 3, none⟩)] "/a.js" [("/b.js", "/a.js")]
    "/b.js" (Or.inr rfl)
    ((checkExists_iff _ _ _).mpr (Reaches.step (by decide)
      (Reaches.refl _)))).2.1 3 rfl

/-! ## Claim C7: dynamic imports register no static edge -/

/-- C7: an import made through the dynamic-import function leaves the
dependency edge set unchanged and never takes a cycle path — no cycle
query outcome is possible — resolving instead either through the
external resolver or as a fresh single-flight load; likewise for
any import call marked dynamic. -/
theorem ssrDynamicImport_no_edge (mg : ModuleMap) (url : String) (g : DepGraph)
    (dep : String) :
    ((ssrDynamicImport mg url g dep).2 = g) ∧
    ((ssrDynamicImport mg url g dep).1 ≠ ImportOutcome.uninitializedCycleError) ∧
    (∀ m, (ssrDynamicImport mg url g dep).1 ≠ ImportOutcome.cycleExports m) ∧
    (∃ d, (ssrDynamicImport mg url g dep).1 = ImportOutcome.external d ∨
      (ssrDynamicImport mg url g dep).1 = ImportOutcome.singleFlightLoad d) ∧
    ((ssrImport mg url g dep true).2 = g) := by
  unfold ssrDynamicImport ssrImport
  by_cases h1 : ((if dep.front = '.' then posixResolve (posixDirname url) dep
      else dep).front ≠ '.' ∧
      (if dep.front = '.' then posixResolve (posixDirname url) dep else dep).front ≠ '/') <;>
    by_cases h2 : (dep.front ≠ '.' ∧ dep.front ≠ '/') <;>
      simp [h1, h2]

/-! ## Claims C4, C5, C6: the instantiation executor -/

/-- C4 (execution-error caching): when a module body throws, the thrown
value becomes the record's fatal error and the load fails with exactly
it, after one body execution; thereafter, loading the unchanged record
fails with the same stored error whatever the transform or body would
now do, with no further body execution (counter stays 1) and no change
to the record. -/
theorem instantiateModule_error_cached
    (heap : Heap) (record : ModRecord) (g : DepGraph) (url : String)
    (tr : Option String) (ops : List HeapOp) (e : Nat)
    (hE : record.ssrError = none) (hM : record.ssrModule = none)
    (hT : (record.ssrTransformResult.orElse (fun _ => tr)).isSome = true) :
    ((instantiateModule heap record g url tr ops (Except.error e) 0).result
      = Except.error (InstErr.execError e)) ∧
    ((instantiateModule heap record g url tr ops (Except.error e) 0).record.ssrError
      = some e) ∧
    ((instantiateModule heap record g url tr ops (Except.error e) 0).counter = 1) ∧
    (∀ (h2 : Heap) (g2 : DepGraph) (url2 : String) (tr2 : Option String)
        (ops2 : List HeapOp) (res2 : Except Nat Unit),
      ((instantiateModule h2
          (instantiateModule heap record g url tr ops (Except.error e) 0).record
          g2 url2 tr2 ops2 res2 1).result = Except.error (InstErr.execError e)) ∧
      ((instantiateModule h2
          (instantiateModule heap record g url tr ops (Except.error e) 0).record
          g2 url2 tr2 ops2 res2 1).counter = 1) ∧
      ((instantiateModule h2
          (instantiateModule heap record g url tr ops (Except.error e) 0).record
          g2 url2 tr2 ops2 res2 1).record
        = (instantiateModule heap record g url tr ops (Except.error e) 0).record)) := by
  rcases Option.isSome_iff_exists.mp hT with ⟨code, hc⟩
  refine ⟨?_, ?_, ?_, ?_⟩ <;>
    simp [instantiateModule, hE, hM, hc]

/-- Witness for C4: a first load whose body throws value 5 runs the body
once; re-loading the resulting record replays error 5 with the counter
still at 1 even though the new body would succeed. -/
theorem instantiateModule_error_cached_witness :
    ((instantiateModule ⟨[], 0⟩ ⟨none, none, some "x"⟩ [] "/m.js" none []
        (Except.error 5) 0).counter = 1) ∧
    ((instantiateModule ⟨[], 0⟩
        (instantiateModule ⟨[], 0⟩ ⟨none, none, some "x"⟩ [] "/m.js" none []
          (Except.error 5) 0).record
        [] "/m.js" none [] (Except.ok ()) 1).result
      = Except.error (InstErr.execError 5)) :=
  ⟨(instantiateModule_error_cached ⟨[], 0⟩ ⟨none, none, some "x"⟩ [] "/m.js" none [] 5
      rfl rfl rfl).2.2.1,
   ((instantiateModule_error_cached ⟨[], 0⟩ ⟨none, none, some "x"⟩ [] "/m.js" none [] 5
      rfl rfl rfl).2.2.2 ⟨[], 0⟩ [] "/m.js" none [] (Except.ok ())).1⟩

/-- C5 (exports-object identity): the exports container allocated and
attached to the record before the body runs — heap identity
`heap.next` — is the object the record keeps whether the body succeeds
or throws, the object a successful instantiation returns, and the
object any cycle participant that reads a record carrying it (in
particular the mid-flight record) receives; its identity never
changes, it only gets populated. -/
theorem instantiateModule_exports_identity
    (heap : Heap) (record : ModRecord) (g : DepGraph) (url : String)
    (tr : Option String) (ops : List HeapOp) (bodyResult : Except Nat Unit) (counter : Nat)
    (hE : record.ssrError = none) (hM : record.ssrModule = none)
    (hT : (record.ssrTransformResult.orElse (fun _ => tr)).isSome = true) :
    ((instantiateModule heap record g url tr ops bodyResult counter).record.ssrModule
      = some (allocModuleExports heap).2) ∧
    (bodyResult = Except.ok () →
      (instantiateModule heap record g url tr ops bodyResult counter).result
        = Except.ok (allocModuleExports heap).2) ∧
    (∀ (mg : ModuleMap) (url2 : String) (g2 : DepGraph) (dep : String) (r : ModRecord),
      r.ssrModule = some (allocModuleExports heap).2 →
      lookupRecord mg (unwrapId dep) = some r →
      (dep.front = '.' ∨ dep.front = '/') →
      checkModuleDependencyExists (addPendingModuleDependency g2 url2 (unwrapId dep))
          (unwrapId dep) url2 = true →
      (ssrImport mg url2 g2 dep false).1
        = ImportOutcome.cycleExports (allocModuleExports heap).2) := by
  rcases Option.isSome_iff_exists.mp hT with ⟨code, hc⟩
  refine ⟨?_, ?_, ?_⟩
  · rcases bodyResult with e | u <;> simp [instantiateModule, hE, hM, hc]
  · intro hok
    subst hok
    simp [instantiateModule, hE, hM, hc]
  · intro mg url2 g2 dep r hr hlook hrel hcyc
    have hfront : ¬ (dep.front ≠ '.' ∧ dep.front ≠ '/') := by
      rcases hrel with h | h <;> simp [h]
    simp [ssrImport, hfront, hcyc, hlook, hr]

/-- Witness for C5: with an empty heap the container is object 0; a
successful instantiation returns object 0, the record keeps it, and a
cycle participant reading such a record receives object 0. -/
theorem instantiateModule_exports_identity_witness :
    ((instantiateModule ⟨[], 0⟩ ⟨none, none, some "x"⟩ [] "/b.js" none []
        (Except.ok ()) 0).result = Except.ok 0) ∧
    ((ssrImport [("/b.js", ⟨none, some 0, some "x"⟩)] "/a.js" [("/b.js", "/a.js")]
        "/b.js" false).1 = ImportOutcome.cycleExports 0) :=
  ⟨(instantiateModule_exports_identity ⟨[], 0⟩ ⟨none, none, some "x"⟩ [] "/b.js" none []
      (Except.ok ()) 0 rfl rfl rfl).2.1 rfl,
   (instantiateModule_exports_identity ⟨[], 0⟩ ⟨none, none, some "x"⟩ [] "/b.js" none []
      (Except.ok ()) 0 rfl rfl rfl).2.2
     [("/b.js", ⟨none, some 0, some "x"⟩)] "/a.js" [("/b.js", "/a.js")] "/b.js"
     ⟨none, some 0, some "x"⟩ rfl rfl (Or.inr rfl)
     ((checkExists_iff _ _ _).mpr (Reaches.step (by decide) (Reaches.refl _)))⟩

/-- C6 (transform-failure atomicity): with no cached transform result
and no fresh transform available, instantiation fails with the
transform error and returns every component — heap, record, edge set,
counter — exactly as it found them; in particular no fatal error and no
exports object is cached, so a subsequent load with a transform
available re-runs the transform and executes the body. -/
theorem instantiateModule_transform_atomic
    (heap : Heap) (record : ModRecord) (g : DepGraph) (url : String)
    (ops : List HeapOp) (bodyResult : Except Nat Unit) (counter : Nat)
    (hE : record.ssrError = none) (hM : record.ssrModule = none)
    (hT : record.ssrTransformResult = none) :
    (instantiateModule heap record g url none ops bodyResult counter
      = ⟨Except.error (InstErr.transformFailed url), heap, record, g, counter⟩) ∧
    (∀ (code : String) (ops2 : List HeapOp) (res2 : Except Nat Unit),
      (instantiateModule heap record g url (some code) ops2 res2 counter).counter
        = counter + 1) := by
  constructor
  · simp [instantiateModule, hE, hM, hT, Option.orElse]
  · intro code ops2 res2
    rcases res2 with e | u <;>
      simp [instantiateModule, hE, hM, hT, Option.orElse]

/-- Witness for C6: a transform failure leaves the record untouched and
the counter at 0; retrying with a transform available runs the body. -/
theorem instantiateModule_transform_atomic_witness :
    (instantiateModule ⟨[], 0⟩ ⟨none, none, none⟩ [] "/m.js" none [] (Except.ok ()) 0
      = ⟨Except.error (InstErr.transformFailed "/m.js"), ⟨[], 0⟩, ⟨none, none, none⟩, [], 0⟩) ∧
    ((instantiateModule ⟨[], 0⟩ ⟨none, none, none⟩ [] "/m.js" (some "x") []
        (Except.ok ()) 0).counter = 1) :=
  ⟨(instantiateModule_transform_atomic ⟨[], 0⟩ ⟨none, none, none⟩ [] "/m.js" []
      (Except.ok ()) 0 rfl rfl rfl).1,
   (instantiateModule_transform_atomic ⟨[], 0⟩ ⟨none, none, none⟩ [] "/m.js" []
      (Except.ok ()) 0 rfl rfl rfl).2 "x" [] (Except.ok ())⟩

/-! ## Heap lemmas for the freeze and live-binding claims -/

theorem find_map_setkey {α β : Type} [DecidableEq α] (l : List (α × β)) (a : α) (b : β) :
    (l.map (fun kv => if kv.1 = a then (a, b) else kv)).find? (fun kv => kv.1 = a)
      = (l.find? (fun kv => kv.1 = a)).map (fun _ => (a, b)) := by
  induction l with
  | nil => rfl
  | cons kv l ih =>
    rw [List.map_cons]
    by_cases hk : kv.1 = a
    · rw [if_pos hk, List.find?_cons_of_pos _ (by simp), List.find?_cons_of_pos _ (by simp [hk])]
      simp
    · rw [if_neg hk, List.find?_cons_of_neg _ (by simp [hk]),
        List.find?_cons_of_neg _ (by simp [hk]), ih]

theorem find_map_setkey_ne {α β : Type} [DecidableEq α] (l : List (α × β)) (a a' : α) (b : β)
    (hne : a' ≠ a) :
    (l.map (fun kv => if kv.1 = a then (a, b) else kv)).find? (fun kv => kv.1 = a')
      = l.find? (fun kv => kv.1 = a') := by
  induction l with
  | nil => rfl
  | cons kv l ih =>
    rw [List.map_cons]
    by_cases hk : kv.1 = a
    · have h1 : ¬ ((a, b).1 = a') := fun hh => hne (hh.symm)
      have h2 : ¬ (kv.1 = a') := fun hh => hne (hh ▸ hk ▸ rfl : a' = a)
      rw [if_pos hk, List.find?_cons_of_neg _ (by simp [h1]),
        List.find?_cons_of_neg _ (by simp [h2]), ih]
    · by_cases hk' : kv.1 = a'
      · rw [if_neg hk, List.find?_cons_of_pos _ (by simp [hk']),
          List.find?_cons_of_pos _ (by simp [hk'])]
      · rw [if_neg hk, List.find?_cons_of_neg _ (by simp [hk']),
          List.find?_cons_of_neg _ (by simp [hk']), ih]

/-- A singleton appended behind a list without the key is found. -/
theorem find_append_single {α β : Type} [DecidableEq α] (l : List (α × β)) (a : α) (b : β)
    (h : l.find? (fun kv => kv.1 = a) = none) :
    (l ++ [(a, b)]).find? (fun kv => kv.1 = a) = some (a, b) := by
  induction l with
  | nil => simp
  | cons kv l ih =>
    have hk : ¬ (kv.1 = a) := by
      intro hh
      rw [List.find?_cons_of_pos _ (by simp [hh])] at h
      exact Option.noConfusion h
    rw [List.cons_append, List.find?_cons_of_neg _ (by simp [hk])]
    rw [List.find?_cons_of_neg _ (by simp [hk])] at h
    exact ih h

/-- A singleton appended behind a list is invisible to other keys. -/
theorem find_append_single_ne {α β : Type} [DecidableEq α] (l : List (α × β)) (a a' : α)
    (b : β) (hne : a' ≠ a) :
    (l ++ [(a, b)]).find? (fun kv => kv.1 = a') = l.find? (fun kv => kv.1 = a') := by
  induction l with
  | nil =>
    have hk : ¬ ((a, b).1 = a') := fun hh => hne hh.symm
    simp only [List.nil_append]
    rw [List.find?_cons_of_neg _ (by simp [hk])]
  | cons kv l ih =>
    by_cases hk : kv.1 = a'
    · rw [List.cons_append, List.find?_cons_of_pos _ (by simp [hk]),
        List.find?_cons_of_pos _ (by simp [hk])]
    · rw [List.cons_append, List.find?_cons_of_neg _ (by simp [hk]),
        List.find?_cons_of_neg _ (by simp [hk])]
      exact ih

theorem lookupObj_updateObj_self (h : Heap) (o : Nat) (ob ob0 : JSObj)
    (h0 : lookupObj h o = some ob0) :
    lookupObj (updateObj h o ob) o = some ob := by
  simp only [lookupObj, updateObj] at *
  rw [find_map_setkey]
  rcases hf : h.objs.find? (fun kv => kv.1 = o) with _ | kv
  · rw [hf] at h0; simp at h0
  · simp [hf]

theorem lookupObj_updateObj_ne (h : Heap) (o o' : Nat) (ob : JSObj) (hne : o' ≠ o) :
    lookupObj (updateObj h o ob) o' = lookupObj h o' := by
  simp only [lookupObj, updateObj]
  rw [find_map_setkey_ne _ _ _ _ hne]

theorem updateObj_WF (h : Heap) (o : Nat) (ob : JSObj) (hwf : h.WF) :
    (updateObj h o ob).WF := by
  intro kv hkv
  simp only [updateObj] at hkv ⊢
  rcases List.mem_map.mp hkv with ⟨kv0, hkv0, heq⟩
  by_cases hk : kv0.1 = o
  · rw [if_pos hk] at heq
    have hlt := hwf kv0 hkv0
    rw [← heq]
    exact hk ▸ hlt
  · rw [if_neg hk] at heq
    rw [← heq]
    exact hwf kv0 hkv0

theorem setOwn_frozen (ob : JSObj) (k : String) (pv : PropVal) :
    (setOwn ob k pv).frozen = ob.frozen := by
  unfold setOwn
  split <;> rfl

theorem getOwn_setOwn_self (ob : JSObj) (k : String) (pv : PropVal) :
    getOwn (setOwn ob k pv) k = some pv := by
  unfold getOwn setOwn
  by_cases hs : (ob.props.find? (fun kv => kv.1 = k)).isSome
  · rw [if_pos hs]
    simp only
    rw [find_map_setkey]
    rcases hf : ob.props.find? (fun kv => kv.1 = k) with _ | kv
    · rw [hf] at hs; simp at hs
    · rw [hf]; simp
  · rw [if_neg hs]
    simp only
    have hnone : ob.props.find? (fun kv => kv.1 = k) = none := by
      rcases hf : ob.props.find? (fun kv => kv.1 = k) with _ | kv
      · exact hf
      · rw [hf] at hs; simp at hs
    rw [find_append_single _ _ _ hnone]
    rfl

theorem getOwn_setOwn_ne (ob : JSObj) (k k' : String) (pv : PropVal) (hne : k' ≠ k) :
    getOwn (setOwn ob k pv) k' = getOwn ob k' := by
  unfold getOwn setOwn
  by_cases hs : (ob.props.find? (fun kv => kv.1 = k)).isSome
  · rw [if_pos hs]
    simp only
    rw [find_map_setkey_ne _ _ _ _ hne]
  · rw [if_neg hs]
    simp only
    rw [find_append_single_ne _ _ _ _ hne]

theorem allocObjWith_WF (h : Heap) (props : List (String × PropVal)) (hwf : h.WF) :
    (allocObjWith h props).1.WF := by
  intro kv hkv
  simp only [allocObjWith] at hkv ⊢
  rcases List.mem_cons.mp hkv with rfl | hkv
  · exact Nat.lt_succ_self _
  · exact Nat.lt_succ_of_lt (hwf kv hkv)

theorem lookupObj_allocObjWith_fresh (h : Heap) (props : List (String × PropVal)) :
    lookupObj (allocObjWith h props).1 h.next = some ⟨props, false⟩ := by
  simp [lookupObj, allocObjWith]

theorem lookupObj_allocObjWith_ne (h : Heap) (props : List (String × PropVal)) (o : Nat)
    (hne : o ≠ h.next) :
    lookupObj (allocObjWith h props).1 o = lookupObj h o := by
  simp only [lookupObj, allocObjWith]
  rw [List.find?_cons_of_neg _ (by simpa using Ne.symm hne)]

/-- `defineGetter` preserves every object's presence and frozen flag and
leaves a frozen object untouched (this covers its own target too, where
the frozen check drops the definition). -/
theorem defineGetter_preserve (h : Heap) (o2 : Nat) (k : String) (src : Nat) (sk : String)
    (o : Nat) (ob : JSObj) (hl : lookupObj h o = some ob) :
    ∃ ob', lookupObj (defineGetter h o2 k src sk) o = some ob' ∧
      ob'.frozen = ob.frozen ∧ (ob.frozen = true → ob' = ob) := by
  by_cases ho : o = o2
  · subst ho
    unfold defineGetter
    simp only [hl]
    by_cases hf : ob.frozen
    · rw [if_pos hf]
      exact ⟨ob, hl, rfl, fun _ => rfl⟩
    · rw [if_neg hf]
      exact ⟨setOwn ob k (PropVal.getter src sk), lookupObj_updateObj_self h o _ ob hl,
        setOwn_frozen ob k _, fun hfr => absurd hfr hf⟩
  · unfold defineGetter
    split
    · exact ⟨ob, hl, rfl, fun _ => rfl⟩
    · split
      · exact ⟨ob, hl, rfl, fun _ => rfl⟩
      · exact ⟨ob, (lookupObj_updateObj_ne h o2 o _ ho).trans hl, rfl, fun _ => rfl⟩

/-- `setProp` preserves every object's presence and frozen flag and
leaves a frozen object untouched. -/
theorem setProp_preserve (h : Heap) (o2 : Nat) (k : String) (v : JSVal)
    (o : Nat) (ob : JSObj) (hl : lookupObj h o = some ob) :
    ∃ ob', lookupObj (setProp h o2 k v) o = some ob' ∧
      ob'.frozen = ob.frozen ∧ (ob.frozen = true → ob' = ob) := by
  by_cases ho : o = o2
  · subst ho
    unfold setProp
    simp only [hl]
    by_cases hf : ob.frozen
    · rw [if_pos hf]
      exact ⟨ob, hl, rfl, fun _ => rfl⟩
    · rw [if_neg hf]
      split
      · exact ⟨ob, hl, rfl, fun _ => rfl⟩
      · exact ⟨setOwn ob k (PropVal.data v), lookupObj_updateObj_self h o _ ob hl,
          setOwn_frozen ob k _, fun hfr => absurd hfr hf⟩
  · unfold setProp
    split
    · exact ⟨ob, hl, rfl, fun _ => rfl⟩
    · split
      · exact ⟨ob, hl, rfl, fun _ => rfl⟩
      · split
        · exact ⟨ob, hl, rfl, fun _ => rfl⟩
        · exact ⟨ob, (lookupObj_updateObj_ne h o2 o _ ho).trans hl, rfl, fun _ => rfl⟩

/-- `deleteProp` preserves every object's presence and frozen flag and
leaves a frozen object untouched. -/
theorem deleteProp_preserve (h : Heap) (o2 : Nat) (k : String)
    (o : Nat) (ob : JSObj) (hl : lookupObj h o = some ob) :
    ∃ ob', lookupObj (deleteProp h o2 k) o = some ob' ∧
      ob'.frozen = ob.frozen ∧ (ob.frozen = true → ob' = ob) := by
  by_cases ho : o = o2
  · subst ho
    unfold deleteProp
    simp only [hl]
    by_cases hf : ob.frozen
    · rw [if_pos hf]
      exact ⟨ob, hl, rfl, fun _ => rfl⟩
    · rw [if_neg hf]
      exact ⟨{ ob with props := ob.props.filter (fun kv => ¬ kv.1 = k) },
        lookupObj_updateObj_self h o _ ob hl, rfl, fun hfr => absurd hfr hf⟩
  · unfold deleteProp
    split
    · exact ⟨ob, hl, rfl, fun _ => rfl⟩
    · split
      · exact ⟨ob, hl, rfl, fun _ => rfl⟩
      · exact ⟨ob, (lookupObj_updateObj_ne h o2 o _ ho).trans hl, rfl, fun _ => rfl⟩

/-- The re-export fold preserves every object's presence and frozen flag
and leaves frozen objects untouched. -/
theorem foldGetters_preserve (t src : Nat) (l : List (String × PropVal)) :
    ∀ (h : Heap) (o : Nat) (ob : JSObj), lookupObj h o = some ob →
    ∃ ob', lookupObj (l.foldl (fun h kv =>
        if kv.1 ≠ "default" ∧ kv.1 ≠ "__esModule"
        then defineGetter h t kv.1 src kv.1 else h) h) o = some ob' ∧
      ob'.frozen = ob.frozen ∧ (ob.frozen = true → ob' = ob) := by
  induction l with
  | nil =>
    intro h o ob hl
    exact ⟨ob, hl, rfl, fun _ => rfl⟩
  | cons kv rest ih =>
    intro h o ob hl
    rw [List.foldl_cons]
    by_cases hc : (kv.1 ≠ "default" ∧ kv.1 ≠ "__esModule")
    · rw [if_pos hc]
      rcases defineGetter_preserve h t kv.1 src kv.1 o ob hl with ⟨ob1, hl1, hfr1, hfix1⟩
      rcases ih _ o ob1 hl1 with ⟨ob2, hl2, hfr2, hfix2⟩
      refine ⟨ob2, hl2, hfr2.trans hfr1, fun hfr => ?_⟩
      rw [hfix2 (by rw [hfr1]; exact hfr), hfix1 hfr]
    · rw [if_neg hc]
      exact ih h o ob hl

/-- `ssrExportAll` preserves every object's presence and frozen flag and
leaves frozen objects untouched. -/
theorem ssrExportAll_preserve (h : Heap) (t src : Nat)
    (o : Nat) (ob : JSObj) (hl : lookupObj h o = some ob) :
    ∃ ob', lookupObj (ssrExportAll h t src) o = some ob' ∧
      ob'.frozen = ob.frozen ∧ (ob.frozen = true → ob' = ob) := by
  unfold ssrExportAll
  rcases hsrc : lookupObj h src with _ | so
  · exact ⟨ob, hl, rfl, fun _ => rfl⟩
  · exact foldGetters_preserve t src so.props h o ob hl

/-- One body heap effect preserves every object's presence and frozen
flag, and cannot change a frozen object (well-formedness keeps `alloc`
from colliding with live identities). -/
theorem applyOp_preserve (h : Heap) (op : HeapOp) (o : Nat) (ob : JSObj)
    (hwf : h.WF) (hl : lookupObj h o = some ob) :
    ∃ ob', lookupObj (applyOp h op) o = some ob' ∧
      ob'.frozen = ob.frozen ∧ (ob.frozen = true → ob' = ob) := by
  rcases op with ⟨o2, k, v⟩ | ⟨o2, k, src, sk⟩ | ⟨t, src⟩ | ⟨o2, k⟩ | props
  · exact setProp_preserve h o2 k v o ob hl
  · exact defineGetter_preserve h o2 k src sk o ob hl
  · exact ssrExportAll_preserve h t src o ob hl
  · exact deleteProp_preserve h o2 k o ob hl
  · have ho : o ≠ h.next := by
      intro hh
      simp only [lookupObj] at hl
      rcases hf : h.objs.find? (fun kv => kv.1 = o) with _ | kv
      · rw [hf] at hl
        exact Option.noConfusion hl
      · have h1 := List.find?_some hf
        have h2 := hwf kv (List.mem_of_find?_eq_some hf)
        have h3 : kv.1 = o := by simpa using h1
        rw [h3, hh] at h2
        exact lt_irrefl _ h2
    refine ⟨ob, ?_, rfl, fun _ => rfl⟩
    rw [show applyOp h (HeapOp.alloc props) = (allocObjWith h props).1 from rfl]
    rw [lookupObj_allocObjWith_ne h props o ho]
    exact hl

theorem updateObj_next (h : Heap) (o : Nat) (ob : JSObj) :
    (updateObj h o ob).next = h.next := rfl

theorem defineGetter_WF (h : Heap) (o : Nat) (k : String) (src : Nat) (sk : String)
    (hwf : h.WF) : (defineGetter h o k src sk).WF := by
  unfold defineGetter
  split
  · exact hwf
  · split
    · exact hwf
    · exact updateObj_WF _ _ _ hwf

theorem setProp_WF (h : Heap) (o : Nat) (k : String) (v : JSVal) (hwf : h.WF) :
    (setProp h o k v).WF := by
  unfold setProp
  split
  · exact hwf
  · split
    · exact hwf
    · split
      · exact hwf
      · exact updateObj_WF _ _ _ hwf

theorem deleteProp_WF (h : Heap) (o : Nat) (k : String) (hwf : h.WF) :
    (deleteProp h o k).WF := by
  unfold deleteProp
  split
  · exact hwf
  · split
    · exact hwf
    · exact updateObj_WF _ _ _ hwf

theorem ssrExportAll_WF (h : Heap) (t src : Nat) (hwf : h.WF) :
    (ssrExportAll h t src).WF := by
  have hgen : ∀ (l : List (String × PropVal)) (h : Heap), h.WF →
      (l.foldl (fun h kv =>
        if kv.1 ≠ "default" ∧ kv.1 ≠ "__esModule"
        then defineGetter h t kv.1 src kv.1 else h) h).WF := by
    intro l
    induction l with
    | nil => exact fun h hh => hh
    | cons kv rest ih =>
      intro h hh
      rw [List.foldl_cons]
      by_cases hc : (kv.1 ≠ "default" ∧ kv.1 ≠ "__esModule")
      · rw [if_pos hc]
        exact ih _ (defineGetter_WF _ _ _ _ _ hh)
      · rw [if_neg hc]
        exact ih _ hh
  unfold ssrExportAll
  split
  · exact hwf
  · exact hgen _ _ hwf

theorem applyOp_WF (h : Heap) (op : HeapOp) (hwf : h.WF) : (applyOp h op).WF := by
  rcases op with ⟨o2, k, v⟩ | ⟨o2, k, src, sk⟩ | ⟨t, src⟩ | ⟨o2, k⟩ | props
  · exact setProp_WF h o2 k v hwf
  · exact defineGetter_WF h o2 k src sk hwf
  · exact ssrExportAll_WF h t src hwf
  · exact deleteProp_WF h o2 k hwf
  · exact allocObjWith_WF h props hwf

theorem applyOps_WF (ops : List HeapOp) : ∀ h : Heap, h.WF → (applyOps h ops).WF := by
  induction ops with
  | nil => exact fun h hh => hh
  | cons op rest ih =>
    intro h hh
    rw [show applyOps h (op :: rest) = applyOps (applyOp h op) rest from rfl]
    exact ih _ (applyOp_WF h op hh)

/-- A whole run of body effects preserves presence and frozen flags and
cannot change a frozen object. -/
theorem applyOps_preserve (ops : List HeapOp) : ∀ (h : Heap) (o : Nat) (ob : JSObj),
    h.WF → lookupObj h o = some ob →
    ∃ ob', lookupObj (applyOps h ops) o = some ob' ∧
      ob'.frozen = ob.frozen ∧ (ob.frozen = true → ob' = ob) := by
  induction ops with
  | nil =>
    intro h o ob _ hl
    exact ⟨ob, hl, rfl, fun _ => rfl⟩
  | cons op rest ih =>
    intro h o ob hwf hl
    rcases applyOp_preserve h op o ob hwf hl with ⟨ob1, hl1, hfr1, hfix1⟩
    rcases ih (applyOp h op) o ob1 (applyOp_WF h op hwf) hl1 with ⟨ob2, hl2, hfr2, hfix2⟩
    rw [show applyOps h (op :: rest) = applyOps (applyOp h op) rest from rfl]
    refine ⟨ob2, hl2, hfr2.trans hfr1, fun hfr => ?_⟩
    rw [hfix2 (by rw [hfr1]; exact hfr), hfix1 hfr]

theorem lookupObj_freezeObj_self (h : Heap) (o : Nat) (ob : JSObj)
    (hl : lookupObj h o = some ob) :
    lookupObj (freezeObj h o) o = some { ob with frozen := true } := by
  unfold freezeObj
  simp only [hl]
  exact lookupObj_updateObj_self h o _ ob hl

theorem freezeObj_WF (h : Heap) (o : Nat) (hwf : h.WF) : (freezeObj h o).WF := by
  unfold freezeObj
  split
  · exact hwf
  · exact updateObj_WF _ _ _ hwf

/-! ## Claim C9: immutability after return -/

/-- C9 (immutability after return): a successful instantiation hands
back its exports container frozen — the heap object at the returned
identity carries the frozen mark — and from then on no sequence of body
effects (assignment, accessor definition, re-export, deletion,
allocation) can observe-ably add, remove or change any of its
properties: its stored object stays exactly the same.  A cycle
participant holds that same identity, so its captured reference is
frozen too once the owning load resolves. -/
theorem instantiateModule_freezes
    (heap : Heap) (record : ModRecord) (g : DepGraph) (url : String)
    (tr : Option String) (ops : List HeapOp) (counter : Nat)
    (hwf : heap.WF)
    (hE : record.ssrError = none) (hM : record.ssrModule = none)
    (hT : (record.ssrTransformResult.orElse (fun _ => tr)).isSome = true) :
    ∃ ob : JSObj,
      lookupObj (instantiateModule heap record g url tr ops (Except.ok ()) counter).heap
          (allocModuleExports heap).2 = some ob ∧
      ob.frozen = true ∧
      ∀ ops2 : List HeapOp,
        lookupObj (applyOps
            (instantiateModule heap record g url tr ops (Except.ok ()) counter).heap ops2)
          (allocModuleExports heap).2 = some ob := by
  rcases Option.isSome_iff_exists.mp hT with ⟨code, hc⟩
  have hheap : (instantiateModule heap record g url tr ops (Except.ok ()) counter).heap
      = freezeObj (applyOps (allocModuleExports heap).1 ops) (allocModuleExports heap).2 := by
    simp [instantiateModule, hE, hM, hc]
  have h1 : lookupObj (allocModuleExports heap).1 (allocModuleExports heap).2
      = some ⟨[("__esModule", PropVal.data (JSVal.prim (Prim.boolean true)))], false⟩ :=
    lookupObj_allocObjWith_fresh heap _
  have hwf1 : (allocModuleExports heap).1.WF := allocObjWith_WF heap _ hwf
  rcases applyOps_preserve ops _ _ _ hwf1 h1 with ⟨ob2, hl2, hfr2, _⟩
  have hwf2 : (applyOps (allocModuleExports heap).1 ops).WF := applyOps_WF ops _ hwf1
  have h3 := lookupObj_freezeObj_self _ _ _ hl2
  have hwf3 : (freezeObj (applyOps (allocModuleExports heap).1 ops)
      (allocModuleExports heap).2).WF := freezeObj_WF _ _ hwf2
  refine ⟨{ ob2 with frozen := true }, ?_, rfl, ?_⟩
  · rw [hheap]
    exact h3
  · intro ops2
    rw [hheap]
    rcases applyOps_preserve ops2 _ _ _ hwf3 h3 with ⟨ob4, hl4, _, hfix4⟩
    rw [hl4, hfix4 rfl]

/-- Witness for C9: after a successful instantiation on the empty heap,
assigning to the returned object and deleting its marker key leave it
bit-for-bit unchanged (and frozen). -/
theorem instantiateModule_freezes_witness :
    lookupObj (applyOps
        (instantiateModule ⟨[], 0⟩ ⟨none, none, some "x"⟩ [] "/m.js" none []
          (Except.ok ()) 0).heap
        [HeapOp.set 0 "a" (JSVal.prim Prim.null), HeapOp.del 0 "__esModule"]) 0
      = some ⟨[("__esModule", PropVal.data (JSVal.prim (Prim.boolean true)))], true⟩ := by
  rcases instantiateModule_freezes ⟨[], 0⟩ ⟨none, none, some "x"⟩ [] "/m.js" none [] 0
      (by intro kv hkv; simp at hkv) rfl rfl rfl with ⟨ob, h1, _, h3⟩
  have hob : some ob
      = some (⟨[("__esModule", PropVal.data (JSVal.prim (Prim.boolean true)))], true⟩ : JSObj) :=
    h1.symm.trans rfl
  exact (h3 [HeapOp.set 0 "a" (JSVal.prim Prim.null), HeapOp.del 0 "__esModule"]).trans hob

/-! ## Claim C8: live re-export bindings -/

theorem defineGetter_lookup_ne (h : Heap) (t : Nat) (k : String) (src : Nat) (sk : String)
    (o : Nat) (ho : o ≠ t) :
    lookupObj (defineGetter h t k src sk) o = lookupObj h o := by
  unfold defineGetter
  split
  · rfl
  · split
    · rfl
    · exact lookupObj_updateObj_ne h t o _ ho

theorem setProp_lookup_ne (h : Heap) (t : Nat) (k : String) (v : JSVal) (o : Nat)
    (ho : o ≠ t) :
    lookupObj (setProp h t k v) o = lookupObj h o := by
  unfold setProp
  split
  · rfl
  · split
    · rfl
    · split
      · rfl
      · exact lookupObj_updateObj_ne h t o _ ho

theorem foldGetters_lookup_ne (t src : Nat) (l : List (String × PropVal)) (o : Nat)
    (ho : o ≠ t) :
    ∀ h : Heap, lookupObj (l.foldl (fun h kv =>
        if kv.1 ≠ "default" ∧ kv.1 ≠ "__esModule"
        then defineGetter h t kv.1 src kv.1 else h) h) o = lookupObj h o := by
  induction l with
  | nil => intro h; rfl
  | cons kv rest ih =>
    intro h
    rw [List.foldl_cons]
    by_cases hc : (kv.1 ≠ "default" ∧ kv.1 ≠ "__esModule")
    · rw [if_pos hc, ih, defineGetter_lookup_ne h t kv.1 src kv.1 o ho]
    · rw [if_neg hc, ih]

/-- The re-export fold installs, for every listed key other than the two
reserved ones, the accessor deferring to the source object, and leaves
every other key's slot as it was. -/
theorem foldGetters_install (t src : Nat) (l : List (String × PropVal)) :
    ∀ (h : Heap) (eo : JSObj), lookupObj h t = some eo → eo.frozen = false →
    ∃ eo', lookupObj (l.foldl (fun h kv =>
        if kv.1 ≠ "default" ∧ kv.1 ≠ "__esModule"
        then defineGetter h t kv.1 src kv.1 else h) h) t = some eo' ∧
      eo'.frozen = false ∧
      (∀ k, k ∈ l.map Prod.fst → k ≠ "default" → k ≠ "__esModule" →
        getOwn eo' k = some (PropVal.getter src k)) ∧
      (∀ k, ¬ (k ∈ l.map Prod.fst ∧ k ≠ "default" ∧ k ≠ "__esModule") →
        getOwn eo' k = getOwn eo k) := by
  induction l with
  | nil =>
    intro h eo hl hf
    exact ⟨eo, hl, hf, fun k hk _ _ => absurd hk (List.not_mem_nil k), fun k _ => rfl⟩
  | cons kv rest ih =>
    intro h eo hl hf
    rw [List.foldl_cons]
    by_cases hc : (kv.1 ≠ "default" ∧ kv.1 ≠ "__esModule")
    · rw [if_pos hc]
      have hl1 : lookupObj (defineGetter h t kv.1 src kv.1) t
          = some (setOwn eo kv.1 (PropVal.getter src kv.1)) := by
        unfold defineGetter
        simp only [hl]
        rw [if_neg (by rw [hf]; exact Bool.false_ne_true)]
        exact lookupObj_updateObj_self h t _ eo hl
      have hf1 : (setOwn eo kv.1 (PropVal.getter src kv.1)).frozen = false := by
        rw [setOwn_frozen]
        exact hf
      rcases ih _ _ hl1 hf1 with ⟨eo', hle', hfe', hgood, hrest⟩
      refine ⟨eo', hle', hfe', ?_, ?_⟩
      · intro k hk hkd hke
        rw [List.map_cons] at hk
        rcases List.mem_cons.mp hk with hk1 | hk2
        · by_cases hkr : k ∈ rest.map Prod.fst
          · exact hgood k hkr hkd hke
          · subst hk1
            rw [hrest kv.1 (fun hcon => hkr hcon.1)]
            exact getOwn_setOwn_self eo kv.1 _
        · exact hgood k hk2 hkd hke
      · intro k hnk
        have hnk' : ¬ (k ∈ rest.map Prod.fst ∧ k ≠ "default" ∧ k ≠ "__esModule") := by
          intro hcon
          refine hnk ⟨?_, hcon.2⟩
          rw [List.map_cons]
          exact List.mem_cons_of_mem _ hcon.1
        rw [hrest k hnk']
        by_cases hkk : k = kv.1
        · exfalso
          apply hnk
          refine ⟨?_, ?_, ?_⟩
          · rw [List.map_cons, hkk]
            exact List.mem_cons_self _ _
          · rw [hkk]; exact hc.1
          · rw [hkk]; exact hc.2
        · exact getOwn_setOwn_ne eo kv.1 k _ hkk
    · rw [if_neg hc]
      rcases ih _ _ hl hf with ⟨eo', hle', hfe', hgood, hrest⟩
      refine ⟨eo', hle', hfe', ?_, ?_⟩
      · intro k hk hkd hke
        rw [List.map_cons] at hk
        rcases List.mem_cons.mp hk with hk1 | hk2
        · exfalso
          apply hc
          exact ⟨hk1 ▸ hkd, hk1 ▸ hke⟩
        · exact hgood k hk2 hkd hke
      · intro k hnk
        apply hrest
        intro hcon
        refine hnk ⟨?_, hcon.2⟩
        rw [List.map_cons]
        exact List.mem_cons_of_mem _ hcon.1

/-- C8 (re-export-all live bindings): `ssrExportAll` installs, for every
enumerable key of the source except the reserved `default` and
`__esModule` keys, a getter on the exports container that reads the
source's property at access time — so the re-exporting module's exports
read the source's current data values, and a later mutation of the
source's value for such a key is visible through the re-exported key
without re-running the re-export step. -/
theorem ssrExportAll_live (h : Heap) (e s : Nat) (eo so : JSObj) (k : String)
    (hes : e ≠ s)
    (hle : lookupObj h e = some eo) (hef : eo.frozen = false)
    (hls : lookupObj h s = some so) (hsf : so.frozen = false)
    (hk : k ∈ so.props.map Prod.fst) (hkd : k ≠ "default") (hke : k ≠ "__esModule") :
    (∃ eo', lookupObj (ssrExportAll h e s) e = some eo' ∧
      getOwn eo' k = some (PropVal.getter s k)) ∧
    (∀ v0 : JSVal, getOwn so k = some (PropVal.data v0) →
      readProp 2 (ssrExportAll h e s) e k = some v0) ∧
    (∀ v0 v : JSVal, getOwn so k = some (PropVal.data v0) →
      readProp 2 (setProp (ssrExportAll h e s) s k v) e k = some v) := by
  have hdef : ssrExportAll h e s = so.props.foldl (fun h kv =>
      if kv.1 ≠ "default" ∧ kv.1 ≠ "__esModule"
      then defineGetter h e kv.1 s kv.1 else h) h := by
    unfold ssrExportAll
    simp only [hls]
  rcases foldGetters_install e s so.props h eo hle hef with ⟨eo', hle', _, hgood, _⟩
  rw [← hdef] at hle'
  have hget : getOwn eo' k = some (PropVal.getter s k) := hgood k hk hkd hke
  have hsrc : lookupObj (ssrExportAll h e s) s = some so := by
    rw [hdef, foldGetters_lookup_ne e s so.props s hes.symm h]
    exact hls
  refine ⟨⟨eo', hle', hget⟩, ?_, ?_⟩
  · intro v0 hv0
    simp [readProp, hle', hget, hsrc, hv0]
  · intro v0 v hv0
    have hset : setProp (ssrExportAll h e s) s k v
        = updateObj (ssrExportAll h e s) s (setOwn so k (PropVal.data v)) := by
      unfold setProp
      simp only [hsrc, hsf, hv0]
      rfl
    have he2 : lookupObj (setProp (ssrExportAll h e s) s k v) e = some eo' := by
      rw [hset, lookupObj_updateObj_ne _ s e _ hes]
      exact hle'
    have hs2 : lookupObj (setProp (ssrExportAll h e s) s k v) s
        = some (setOwn so k (PropVal.data v)) := by
      rw [hset]
      exact lookupObj_updateObj_self _ s _ so hsrc
    simp [readProp, he2, hget, hs2, getOwn_setOwn_self]

/-- Witness for C8: re-exporting B = spread of keys a, b into the empty
exports A makes A read a as 1; mutating B's a to 9 is seen through A
without re-running the re-export. -/
theorem ssrExportAll_live_witness :
    (readProp 2 (ssrExportAll
        ⟨[(0, ⟨[], false⟩),
          (1, ⟨[("a", PropVal.data (JSVal.prim (Prim.number 1))),
                ("b", PropVal.data (JSVal.prim (Prim.number 2)))], false⟩)], 2⟩ 0 1) 0 "a"
      = some (JSVal.prim (Prim.number 1))) ∧
    (readProp 2 (setProp (ssrExportAll
        ⟨[(0, ⟨[], false⟩),
          (1, ⟨[("a", PropVal.data (JSVal.prim (Prim.number 1))),
                ("b", PropVal.data (JSVal.prim (Prim.number 2)))], false⟩)], 2⟩ 0 1)
        1 "a" (JSVal.prim (Prim.number 9))) 0 "a"
      = some (JSVal.prim (Prim.number 9))) :=
  ⟨(ssrExportAll_live ⟨[(0, ⟨[], false⟩),
      (1, ⟨[("a", PropVal.data (JSVal.prim (Prim.number 1))),
            ("b", PropVal.data (JSVal.prim (Prim.number 2)))], false⟩)], 2⟩ 0 1 ⟨[], false⟩
      ⟨[("a", PropVal.data (JSVal.prim (Prim.number 1))),
        ("b", PropVal.data (JSVal.prim (Prim.number 2)))], false⟩ "a"
      (by decide) rfl rfl rfl rfl (by decide) (by decide) (by decide)).2.1
      (JSVal.prim (Prim.number 1)) rfl,
   (ssrExportAll_live ⟨[(0, ⟨[], false⟩),
      (1, ⟨[("a", PropVal.data (JSVal.prim (Prim.number 1))),
            ("b", PropVal.data (JSVal.prim (Prim.number 2)))], false⟩)], 2⟩ 0 1 ⟨[], false⟩
      ⟨[("a", PropVal.data (JSVal.prim (Prim.number 1))),
        ("b", PropVal.data (JSVal.prim (Prim.number 2)))], false⟩ "a"
      (by decide) rfl rfl rfl rfl (by decide) (by decide) (by decide)).2.2
      (JSVal.prim (Prim.number 1)) (JSVal.prim (Prim.number 9)) rfl⟩

/-! ## Claim C10: the legacy interop shim -/

theorem isPrimitive_prim (p : Prim) : isPrimitive (JSVal.prim p) = true := by
  cases p <;> simp [isPrimitive, falsy, jsTypeof]

theorem isPrimitive_obj (o : Nat) : isPrimitive (JSVal.obj o) = false := by
  simp [isPrimitive, falsy, jsTypeof]

/-- In the non-primitive case the shim allocates nothing and mutates
nothing: the heap comes back untouched. -/
theorem proxyESM_fst_obj (h : Heap) (o2 : Nat) : (proxyESM h (JSVal.obj o2)).1 = h := by
  unfold proxyESM
  rw [if_neg (by simp [isPrimitive_obj])]
  rcases hdf : (if hasProp h o2 "default" = true then readPropD h o2 "default"
      else JSVal.obj o2) with p | d
  · simp [hdf]
  · simp only [hdf]
    by_cases hm : hasProp h d "__esModule" = true
    · simp [hm]
    · simp [hm]

/-- Counterexample to C10 as stated.  Underlying exports object 0 has
the property `x` present with value `null` (and a `default` pointing at
object 1 whose `x` is 5).  The claim says a present underlying property
is returned; the shim instead falls back through `??` on the nullish
value and returns 5, not the present `null`. -/
theorem proxyESM_present_property_counterexample :
    (hasProp ⟨[(0, ⟨[("x", PropVal.data (JSVal.prim Prim.null)),
                    ("default", PropVal.data (JSVal.obj 1))], false⟩),
               (1, ⟨[("x", PropVal.data (JSVal.prim (Prim.number 5)))], false⟩)], 2⟩
        0 "x" = true) ∧
    (readPropD ⟨[(0, ⟨[("x", PropVal.data (JSVal.prim Prim.null)),
                    ("default", PropVal.data (JSVal.obj 1))], false⟩),
               (1, ⟨[("x", PropVal.data (JSVal.prim (Prim.number 5)))], false⟩)], 2⟩
        0 "x" = JSVal.prim Prim.null) ∧
    ((proxyESM ⟨[(0, ⟨[("x", PropVal.data (JSVal.prim Prim.null)),
                    ("default", PropVal.data (JSVal.obj 1))], false⟩),
               (1, ⟨[("x", PropVal.data (JSVal.prim (Prim.number 5)))], false⟩)], 2⟩
        (JSVal.obj 0)).2 = ProxyESMResult.proxied ⟨0, JSVal.obj 1⟩) ∧
    (proxyGet ⟨[(0, ⟨[("x", PropVal.data (JSVal.prim Prim.null)),
                    ("default", PropVal.data (JSVal.obj 1))], false⟩),
               (1, ⟨[("x", PropVal.data (JSVal.prim (Prim.number 5)))], false⟩)], 2⟩
        ⟨0, JSVal.obj 1⟩ "x" = JSVal.prim (Prim.number 5)) ∧
    (JSVal.prim (Prim.number 5) ≠ JSVal.prim Prim.null) := by
  refine ⟨rfl, rfl, rfl, rfl, by decide⟩

/-- C10 amended: (i) the shim of a primitive allocates a container
exposing the value only under the reserved default key, with no other
enumerable keys; (ii) reading the reserved default key from the wrapper
returns the computed candidate, and reading any other key returns the
underlying object's read whenever that read is non-nullish, falling
back to the candidate's same-named property whenever the underlying
read yields null or undefined — in particular whenever the property is
absent; (iii) the shim mutates no existing object. -/
theorem proxyESM_read_semantics :
    (∀ (h : Heap) (v : JSVal), isPrimitive v = true →
      (proxyESM h v = ((allocObjWith h [("default", PropVal.data v)]).1,
        ProxyESMResult.plain h.next)) ∧
      lookupObj (proxyESM h v).1 h.next = some ⟨[("default", PropVal.data v)], false⟩) ∧
    (∀ (h : Heap) (p : ProxyESM) (prop : String),
      (prop = "default" → proxyGet h p prop = p.defaultExport) ∧
      (prop ≠ "default" → isNullish (readPropD h p.target prop) = false →
        proxyGet h p prop = readPropD h p.target prop) ∧
      (prop ≠ "default" → isNullish (readPropD h p.target prop) = true →
        proxyGet h p prop = optChainRead h p.defaultExport prop)) ∧
    (∀ (h : Heap) (v : JSVal) (o : Nat), o ≠ h.next →
      lookupObj (proxyESM h v).1 o = lookupObj h o) := by
  refine ⟨?_, ?_, ?_⟩
  · intro h v hp
    have h1 : proxyESM h v = ((allocObjWith h [("default", PropVal.data v)]).1,
        ProxyESMResult.plain h.next) := by
      simp [proxyESM, hp, allocObjWith]
    refine ⟨h1, ?_⟩
    rw [h1]
    exact lookupObj_allocObjWith_fresh h _
  · intro h p prop
    refine ⟨?_, ?_, ?_⟩
    · intro hd
      simp [proxyGet, hd]
    · intro hd hnn
      simp [proxyGet, hd, hnn]
    · intro hd hnn
      simp [proxyGet, hd, hnn]
  · intro h v o ho
    by_cases hp : isPrimitive v = true
    · have h1 : proxyESM h v = ((allocObjWith h [("default", PropVal.data v)]).1,
          ProxyESMResult.plain h.next) := by
        simp [proxyESM, hp, allocObjWith]
      rw [h1]
      exact lookupObj_allocObjWith_ne h _ o ho
    · rcases v with p | o2
      · exact absurd (isPrimitive_prim p) hp
      · rw [proxyESM_fst_obj h o2]

/-- Witness for the amended C10: the shim of the primitive 7 exposes it
only under `default`; a wrapper read of a present non-null key returns
the underlying value; a read of an absent key falls back to the
candidate. -/
theorem proxyESM_read_semantics_witness :
    (proxyESM ⟨[], 0⟩ (JSVal.prim (Prim.number 7))
      = ((allocObjWith ⟨[], 0⟩ [("default", PropVal.data (JSVal.prim (Prim.number 7)))]).1,
         ProxyESMResult.plain 0)) ∧
    (lookupObj (proxyESM ⟨[], 0⟩ (JSVal.prim (Prim.number 7))).1 0
      = some ⟨[("default", PropVal.data (JSVal.prim (Prim.number 7)))], false⟩) ∧
    (proxyGet ⟨[(0, ⟨[("y", PropVal.data (JSVal.prim (Prim.number 3)))], false⟩)], 1⟩
        ⟨0, JSVal.obj 1⟩ "y"
      = readPropD ⟨[(0, ⟨[("y", PropVal.data (JSVal.prim (Prim.number 3)))], false⟩)], 1⟩
          0 "y") ∧
    (proxyGet ⟨[(0, ⟨[("y", PropVal.data (JSVal.prim (Prim.number 3)))], false⟩)], 1⟩
        ⟨0, JSVal.obj 1⟩ "z"
      = optChainRead ⟨[(0, ⟨[("y", PropVal.data (JSVal.prim (Prim.number 3)))], false⟩)], 1⟩
          (JSVal.obj 1) "z") :=
  ⟨(proxyESM_read_semantics.1 ⟨[], 0⟩ (JSVal.prim (Prim.number 7)) rfl).1,
   (proxyESM_read_semantics.1 ⟨[], 0⟩ (JSVal.prim (Prim.number 7)) rfl).2,
   (proxyESM_read_semantics.2.1
      ⟨[(0, ⟨[("y", PropVal.data (JSVal.prim (Prim.number 3)))], false⟩)], 1⟩
      ⟨0, JSVal.obj 1⟩ "y").2.1 (by decide) rfl,
   (proxyESM_read_semantics.2.1
      ⟨[(0, ⟨[("y", PropVal.data (JSVal.prim (Prim.number 3)))], false⟩)], 1⟩
      ⟨0, JSVal.obj 1⟩ "z").2.2 (by decide) rfl⟩

end SsrLoader
